import Mathlib

/-!
Shallow embedding of the turboxl XLSX-to-CSV converter core, checked
against its natural-language specification.

Modelling conventions:
* C++ byte strings (std::string, C char arrays) are lists of byte
  values (`List Nat`).
* Machine integers are `Nat`/`Int`; every theorem that relies on exact
  arithmetic carries bounds under which the C++ `int`/`long long`
  arithmetic cannot overflow.
* IEEE-754 doubles are exact rationals (`ℚ`); NaN and the infinities
  are explicit constructors of a `CppDouble` sum type where the code
  branches on them.
* Loops whose counter shrinks by division are written with an explicit
  fuel argument (kept equal to the counter) so that they stay
  kernel-computable; the `_stable` lemmas show the fuel is irrelevant.
-/

namespace Turboxl

/-- Byte encoding of a Lean string literal; used to state facts about
concrete C++ string values. -/
def strToBytes (s : String) : List Nat := s.data.map Char.toNat

/-- Fuelled digit-emission loop of std::to_string: least significant
digit peeled off by % 10, continue with / 10. -/
def decDigitsBF : Nat → Nat → List Nat
  | 0, _ => []
  | fuel + 1, n => if n = 0 then [] else decDigitsBF fuel (n / 10) ++ [48 + n % 10]

/-- Decimal digit bytes of a number, most significant first; empty for
zero. -/
def decDigitsB (n : Nat) : List Nat := decDigitsBF n n

lemma decDigitsBF_stable : ∀ f₁ : Nat, ∀ f₂ n : Nat, n ≤ f₁ → n ≤ f₂ →
    decDigitsBF f₁ n = decDigitsBF f₂ n := by
  intro f₁
  induction f₁ with
  | zero =>
    intro f₂ n h1 _
    have : n = 0 := by omega
    subst this
    cases f₂ <;> simp [decDigitsBF]
  | succ f ih =>
    intro f₂ n h1 h2
    by_cases hn : n = 0
    · subst hn
      cases f₂ <;> simp [decDigitsBF]
    · obtain ⟨g, rfl⟩ : ∃ g, f₂ = g + 1 := ⟨f₂ - 1, by omega⟩
      simp only [decDigitsBF, if_neg hn]
      have hd : n / 10 < n := Nat.div_lt_self (by omega) (by omega)
      rw [ih g (n / 10) (by omega) (by omega)]

lemma decDigitsB_zero : decDigitsB 0 = [] := rfl

lemma decDigitsB_succ (n : Nat) (h : n ≠ 0) :
    decDigitsB n = decDigitsB (n / 10) ++ [48 + n % 10] := by
  obtain ⟨m, rfl⟩ : ∃ m, n = m + 1 := ⟨n - 1, by omega⟩
  show decDigitsBF (m + 1) (m + 1) = _
  simp only [decDigitsBF, if_neg h]
  have hle : (m + 1) / 10 ≤ m := by
    have : (m + 1) / 10 < m + 1 := Nat.div_lt_self (by omega) (by omega)
    omega
  rw [decDigitsBF_stable m ((m + 1) / 10) ((m + 1) / 10) hle (le_refl _)]
  rfl

/-- Bytes of std::to_string for a nonnegative value ("0" for zero). -/
def decReprB (n : Nat) : List Nat := if n = 0 then [48] else decDigitsB n

/-- Fuelled column-letter loop of CellCoordinate::toReference
(src/unnamed/part_002, lines 458-464): decrement, take % 26 as a
letter, continue with / 26. -/
def colLettersBF : Nat → Nat → List Nat
  | 0, _ => []
  | fuel + 1, col =>
    if col = 0 then [] else colLettersBF fuel ((col - 1) / 26) ++ [65 + (col - 1) % 26]

/-- Column-letter bytes of a 1-based column index (A=1, ..., Z=26,
AA=27, ...). -/
def colLettersB (col : Nat) : List Nat := colLettersBF col col

lemma colLettersBF_stable : ∀ f₁ : Nat, ∀ f₂ col : Nat, col ≤ f₁ → col ≤ f₂ →
    colLettersBF f₁ col = colLettersBF f₂ col := by
  intro f₁
  induction f₁ with
  | zero =>
    intro f₂ col h1 _
    have : col = 0 := by omega
    subst this
    cases f₂ <;> simp [colLettersBF]
  | succ f ih =>
    intro f₂ col h1 h2
    by_cases hc : col = 0
    · subst hc
      cases f₂ <;> simp [colLettersBF]
    · obtain ⟨g, rfl⟩ : ∃ g, f₂ = g + 1 := ⟨f₂ - 1, by omega⟩
      simp only [colLettersBF, if_neg hc]
      have hlt : (col - 1) / 26 ≤ col - 1 := Nat.div_le_self _ _
      rw [ih g ((col - 1) / 26) (by omega) (by omega)]

lemma colLettersB_zero : colLettersB 0 = [] := rfl

lemma colLettersB_succ (col : Nat) (h : col ≠ 0) :
    colLettersB col = colLettersB ((col - 1) / 26) ++ [65 + (col - 1) % 26] := by
  obtain ⟨m, rfl⟩ : ∃ m, col = m + 1 := ⟨col - 1, by omega⟩
  show colLettersBF (m + 1) (m + 1) = _
  simp only [colLettersBF, if_neg h]
  have hle : (m + 1 - 1) / 26 ≤ m := by
    have := Nat.div_le_self (m + 1 - 1) 26
    omega
  rw [colLettersBF_stable m ((m + 1 - 1) / 26) ((m + 1 - 1) / 26) hle (le_refl _)]
  rfl

/-- Cell coordinate: 1-based row and column (src CellCoordinate). -/
structure CellCoordinate where
  row : Nat
  column : Nat
deriving DecidableEq, Repr

/-- CellCoordinate::toReference (src/unnamed/part_002, lines 451-470):
empty string when row or column is not positive, else column letters
followed by the decimal row. -/
def CellCoordinate.toReference (c : CellCoordinate) : List Nat :=
  if c.row = 0 ∨ c.column = 0 then []
  else colLettersB c.column ++ decReprB c.row

/-- C locale std::isalpha on a byte. -/
def isalphaB (c : Nat) : Bool := (65 ≤ c && c ≤ 90) || (97 ≤ c && c ≤ 122)

/-- C locale std::toupper on a byte. -/
def toupperB (c : Nat) : Nat := if 97 ≤ c ∧ c ≤ 122 then c - 32 else c

/-- C locale std::isdigit on a byte. -/
def isdigitB (c : Nat) : Bool := 48 ≤ c && c ≤ 57

/-- Column-letter loop of CellCoordinate::fromReference
(src/unnamed/part_002, lines 421-428): consume isalpha bytes, reject a
toupper image outside A-Z, accumulate base-26; stop at the first
non-alphabetic byte, returning the accumulator and the remainder. -/
def fromRefLetters : List Nat → Nat → Option (Nat × List Nat)
  | [], col => some (col, [])
  | c :: cs, col =>
    if isalphaB c then
      if 65 ≤ toupperB c ∧ toupperB c ≤ 90 then
        fromRefLetters cs (col * 26 + (toupperB c - 64))
      else none
    else some (col, c :: cs)

/-- Row-digit loop shared by both reference parsers: consume decimal
digits, accumulating base-10; stop at the first non-digit. -/
def fromRefDigits : List Nat → Nat → Nat × List Nat
  | [], row => (row, [])
  | c :: cs, row =>
    if isdigitB c then fromRefDigits cs (row * 10 + (c - 48)) else (row, c :: cs)

/-- CellCoordinate::fromReference (src/unnamed/part_002, lines
409-449); the early returns of the C++ become nested conditionals. -/
def CellCoordinate.fromReference (ref : List Nat) : Option CellCoordinate :=
  if ref = [] then none
  else
    match fromRefLetters ref 0 with
    | none => none
    | some (col, rest) =>
      if col = 0 ∨ rest = [] then none
      else if (fromRefDigits rest 0).1 = 0 ∨ (fromRefDigits rest 0).2 ≠ [] then none
      else some ⟨(fromRefDigits rest 0).1, col⟩

/-- Column-letter loop of SheetStreamReader::Impl::parseCellReference
(src/src/core/sheet_stream_reader.cpp, lines 76-79): only bytes A-Z. -/
def sheetRefLetters : List Nat → Nat → Nat × List Nat
  | [], col => (col, [])
  | c :: cs, col =>
    if 65 ≤ c ∧ c ≤ 90 then sheetRefLetters cs (col * 26 + (c - 64))
    else (col, c :: cs)

/-- SheetStreamReader::Impl::parseCellReference
(src/src/core/sheet_stream_reader.cpp, lines 67-99): letters, then a
first digit restricted to 1-9 (an exhausted string presents the NUL
terminator, which also fails that check), then digits, then end of
string. -/
def parseCellReference (ref : List Nat) : Option CellCoordinate :=
  if ref = [] then none
  else if (sheetRefLetters ref 0).1 = 0 then none
  else if (sheetRefLetters ref 0).2 = [] then none
  else if 49 ≤ (sheetRefLetters ref 0).2.headI ∧ (sheetRefLetters ref 0).2.headI ≤ 57 then
    if (fromRefDigits (sheetRefLetters ref 0).2 0).2 ≠ []
        ∨ (fromRefDigits (sheetRefLetters ref 0).2 0).1 = 0 then none
    else some ⟨(fromRefDigits (sheetRefLetters ref 0).2 0).1, (sheetRefLetters ref 0).1⟩
  else none

/-! Arithmetic facts about the digit and letter encodings. -/

/-- Accumulated value of the base-26 letter loops over a byte list. -/
def upVal (cs : List Nat) (acc : Nat) : Nat :=
  cs.foldl (fun a c => a * 26 + (c - 64)) acc

/-- Accumulated value of the base-10 digit loop over a byte list. -/
def digVal (cs : List Nat) (acc : Nat) : Nat :=
  cs.foldl (fun a c => a * 10 + (c - 48)) acc

lemma colLettersB_mem : ∀ col c : Nat, c ∈ colLettersB col → 65 ≤ c ∧ c ≤ 90 := by
  intro col
  induction col using Nat.strong_induction_on with
  | _ col ih =>
    intro c hc
    by_cases h0 : col = 0
    · rw [h0, colLettersB_zero] at hc
      simp at hc
    · rw [colLettersB_succ col h0] at hc
      have hlt : (col - 1) / 26 < col :=
        Nat.lt_of_le_of_lt (Nat.div_le_self _ _) (by omega)
      rcases List.mem_append.mp hc with hc | hc
      · exact ih _ hlt _ hc
      · have : c = 65 + (col - 1) % 26 := List.mem_singleton.mp hc
        omega

lemma decDigitsB_mem : ∀ n c : Nat, c ∈ decDigitsB n → 48 ≤ c ∧ c ≤ 57 := by
  intro n
  induction n using Nat.strong_induction_on with
  | _ n ih =>
    intro c hc
    by_cases h0 : n = 0
    · rw [h0, decDigitsB_zero] at hc
      simp at hc
    · rw [decDigitsB_succ n h0] at hc
      have hlt : n / 10 < n := Nat.div_lt_self (by omega) (by omega)
      rcases List.mem_append.mp hc with hc | hc
      · exact ih _ hlt _ hc
      · have : c = 48 + n % 10 := List.mem_singleton.mp hc
        omega

lemma decDigitsB_head : ∀ n : Nat, 1 ≤ n →
    ∃ d t, decDigitsB n = d :: t ∧ 49 ≤ d ∧ d ≤ 57 := by
  intro n
  induction n using Nat.strong_induction_on with
  | _ n ih =>
    intro hn
    have h0 : n ≠ 0 := by omega
    rw [decDigitsB_succ n h0]
    by_cases hq : n / 10 = 0
    · rw [hq, decDigitsB_zero, List.nil_append]
      refine ⟨48 + n % 10, [], rfl, ?_, ?_⟩
      · have hlt : n < 10 := by omega
        have : n % 10 = n := Nat.mod_eq_of_lt hlt
        omega
      · omega
    · have hlt : n / 10 < n := Nat.div_lt_self (by omega) (by omega)
      obtain ⟨d, t, ht, hd1, hd2⟩ := ih (n / 10) hlt (by omega)
      exact ⟨d, t ++ [48 + n % 10], by rw [ht]; rfl, hd1, hd2⟩

lemma upVal_append (xs ys : List Nat) (acc : Nat) :
    upVal (xs ++ ys) acc = upVal ys (upVal xs acc) := by
  simp [upVal, List.foldl_append]

lemma upVal_colLettersB : ∀ col acc : Nat,
    upVal (colLettersB col) acc = acc * 26 ^ (colLettersB col).length + col := by
  intro col
  induction col using Nat.strong_induction_on with
  | _ col ih =>
    intro acc
    by_cases h0 : col = 0
    · rw [h0, colLettersB_zero]
      simp [upVal]
    · have hlt : (col - 1) / 26 < col :=
        Nat.lt_of_le_of_lt (Nat.div_le_self _ _) (by omega)
      rw [colLettersB_succ col h0, upVal_append, ih _ hlt acc]
      simp only [upVal, List.foldl_cons, List.foldl_nil, List.length_append,
        List.length_singleton]
      have hmod : 26 * ((col - 1) / 26) + (col - 1) % 26 = col - 1 :=
        Nat.div_add_mod _ _
      rw [pow_succ, ← mul_assoc]
      generalize acc * 26 ^ (colLettersB ((col - 1) / 26)).length = m
      omega

lemma digVal_decDigitsB : ∀ n acc : Nat,
    digVal (decDigitsB n) acc = acc * 10 ^ (decDigitsB n).length + n := by
  intro n
  induction n using Nat.strong_induction_on with
  | _ n ih =>
    intro acc
    by_cases h0 : n = 0
    · rw [h0, decDigitsB_zero]
      simp [digVal]
    · have hlt : n / 10 < n := Nat.div_lt_self (by omega) (by omega)
      have hrec := ih _ hlt acc
      rw [decDigitsB_succ n h0]
      simp only [digVal, List.foldl_append, List.foldl_cons, List.foldl_nil,
        List.length_append, List.length_singleton]
      simp only [digVal] at hrec
      rw [hrec]
      have hmod : 10 * (n / 10) + n % 10 = n := Nat.div_add_mod _ _
      rw [pow_succ, ← mul_assoc]
      generalize acc * 10 ^ (decDigitsB (n / 10)).length = m
      omega

lemma upVal_colLettersB_zero (col : Nat) : upVal (colLettersB col) 0 = col := by
  rw [upVal_colLettersB]
  simp

lemma digVal_decDigitsB_zero (n : Nat) : digVal (decDigitsB n) 0 = n := by
  rw [digVal_decDigitsB]
  simp

lemma sheetRefLetters_append (xs : List Nat) :
    ∀ (rest : List Nat) (acc : Nat), (∀ c ∈ xs, 65 ≤ c ∧ c ≤ 90) →
      sheetRefLetters (xs ++ rest) acc = sheetRefLetters rest (upVal xs acc) := by
  induction xs with
  | nil => intro rest acc _; simp [upVal]
  | cons x t ih =>
    intro rest acc hx
    have hx0 : 65 ≤ x ∧ x ≤ 90 := hx x (List.mem_cons_self _ _)
    simp only [List.cons_append, sheetRefLetters, if_pos hx0, List.append_eq]
    rw [ih rest _ (fun c hc => hx c (List.mem_cons_of_mem _ hc))]
    simp [upVal]

lemma sheetRefLetters_stop (rest : List Nat) (acc : Nat)
    (h : ∀ d t, rest = d :: t → ¬(65 ≤ d ∧ d ≤ 90)) :
    sheetRefLetters rest acc = (acc, rest) := by
  cases rest with
  | nil => rfl
  | cons d t => simp [sheetRefLetters, h d t rfl]

lemma fromRefLetters_append (xs : List Nat) :
    ∀ (rest : List Nat) (acc : Nat), (∀ c ∈ xs, 65 ≤ c ∧ c ≤ 90) →
      fromRefLetters (xs ++ rest) acc = fromRefLetters rest (upVal xs acc) := by
  induction xs with
  | nil => intro rest acc _; simp [upVal]
  | cons x t ih =>
    intro rest acc hx
    have hx0 : 65 ≤ x ∧ x ≤ 90 := hx x (List.mem_cons_self _ _)
    have halpha : isalphaB x = true := by
      simp only [isalphaB, Bool.or_eq_true, decide_eq_true_eq, Bool.and_eq_true]
      omega
    have hup : toupperB x = x := by
      simp only [toupperB]
      rw [if_neg (by omega)]
    simp only [List.cons_append, fromRefLetters, halpha, if_true, hup,
      if_pos hx0, List.append_eq]
    rw [ih rest _ (fun c hc => hx c (List.mem_cons_of_mem _ hc))]
    simp [upVal]

lemma fromRefLetters_stop (rest : List Nat) (acc : Nat)
    (h : ∀ d t, rest = d :: t → isalphaB d = false) :
    fromRefLetters rest acc = some (acc, rest) := by
  cases rest with
  | nil => rfl
  | cons d t => simp [fromRefLetters, h d t rfl]

lemma fromRefDigits_append (xs : List Nat) :
    ∀ (rest : List Nat) (acc : Nat), (∀ c ∈ xs, 48 ≤ c ∧ c ≤ 57) →
      fromRefDigits (xs ++ rest) acc = fromRefDigits rest (digVal xs acc) := by
  induction xs with
  | nil => intro rest acc _; simp [digVal]
  | cons x t ih =>
    intro rest acc hx
    have hx0 : 48 ≤ x ∧ x ≤ 57 := hx x (List.mem_cons_self _ _)
    have hdig : isdigitB x = true := by
      simp only [isdigitB, Bool.and_eq_true, decide_eq_true_eq]
      omega
    simp only [List.cons_append, fromRefDigits, hdig, if_true, List.append_eq]
    rw [ih rest _ (fun c hc => hx c (List.mem_cons_of_mem _ hc))]
    simp [digVal]

lemma fromRefDigits_decDigitsB (n : Nat) :
    fromRefDigits (decDigitsB n) 0 = (n, []) := by
  have h := fromRefDigits_append (decDigitsB n) [] 0 (decDigitsB_mem n)
  rw [List.append_nil] at h
  rw [h]
  show (digVal (decDigitsB n) 0, []) = (n, [])
  rw [digVal_decDigitsB_zero]

/-- Round-trip helper: CellCoordinate::fromReference inverts
CellCoordinate::toReference on any positive coordinate (no machine
overflow can occur in `Nat`). -/
lemma fromReference_toReference (c : CellCoordinate)
    (hr : 1 ≤ c.row) (hc : 1 ≤ c.column) :
    CellCoordinate.fromReference c.toReference = some c := by
  obtain ⟨row, col⟩ := c
  simp only at hr hc
  have hrefeq : CellCoordinate.toReference ⟨row, col⟩
      = colLettersB col ++ decDigitsB row := by
    simp only [CellCoordinate.toReference]
    rw [if_neg (by omega), decReprB, if_neg (by omega)]
  obtain ⟨d, t, hdt, hd1, hd2⟩ := decDigitsB_head row hr
  have hletters : fromRefLetters (colLettersB col ++ decDigitsB row) 0
      = some (col, decDigitsB row) := by
    rw [fromRefLetters_append _ _ _ (colLettersB_mem col)]
    rw [fromRefLetters_stop]
    · rw [upVal_colLettersB_zero]
    · intro e s hes
      rw [hdt] at hes
      cases hes
      simp only [isalphaB, Bool.or_eq_false_iff, Bool.and_eq_false_iff,
        decide_eq_false_iff_not]
      omega
  have hne : colLettersB col ++ decDigitsB row ≠ [] := by
    rw [hdt]
    simp
  have hrestne : decDigitsB row ≠ [] := by rw [hdt]; simp
  rw [hrefeq, CellCoordinate.fromReference, if_neg hne]
  simp only [hletters]
  rw [if_neg (by push_neg; exact ⟨by omega, hrestne⟩)]
  rw [fromRefDigits_decDigitsB]
  rw [if_neg (by push_neg; exact ⟨by omega, rfl⟩)]

/-- Round-trip helper for the sheet reader's parseCellReference. -/
lemma parseCellReference_toReference (c : CellCoordinate)
    (hr : 1 ≤ c.row) (hc : 1 ≤ c.column) :
    parseCellReference c.toReference = some c := by
  obtain ⟨row, col⟩ := c
  simp only at hr hc
  have hrefeq : CellCoordinate.toReference ⟨row, col⟩
      = colLettersB col ++ decDigitsB row := by
    simp only [CellCoordinate.toReference]
    rw [if_neg (by omega), decReprB, if_neg (by omega)]
  obtain ⟨d, t, hdt, hd1, hd2⟩ := decDigitsB_head row hr
  have hletters : sheetRefLetters (colLettersB col ++ decDigitsB row) 0
      = (col, decDigitsB row) := by
    rw [sheetRefLetters_append _ _ _ (colLettersB_mem col)]
    rw [sheetRefLetters_stop]
    · rw [upVal_colLettersB_zero]
    · intro e s hes
      rw [hdt] at hes
      cases hes
      omega
  have hne : colLettersB col ++ decDigitsB row ≠ [] := by
    rw [hdt]
    simp
  have hhead : (decDigitsB row).headI = d := by rw [hdt]; rfl
  rw [hrefeq, parseCellReference, if_neg hne]
  rw [hletters]
  rw [if_neg (by omega)]
  rw [if_neg (by rw [hdt]; simp)]
  rw [hhead, if_pos ⟨hd1, hd2⟩]
  rw [fromRefDigits_decDigitsB]
  rw [if_neg (by push_neg; exact ⟨rfl, by omega⟩)]

/-- C5: for every valid cell coordinate (1-based row and column within
the sheet maxima), CellCoordinate::fromReference applied to
CellCoordinate::toReference returns the same coordinate; and for each
of the references A1, Z9, AA1, AZ1, BA1, XFD1048576, parsing and then
formatting reproduces the reference byte-for-byte. -/
theorem c5_coordinate_roundtrip :
    (∀ c : CellCoordinate, 1 ≤ c.row → c.row ≤ 1048576 →
      1 ≤ c.column → c.column ≤ 16384 →
      CellCoordinate.fromReference c.toReference = some c)
    ∧ (∀ ref ∈ ["A1", "Z9", "AA1", "AZ1", "BA1", "XFD1048576"],
        Option.map CellCoordinate.toReference
          (CellCoordinate.fromReference (strToBytes ref))
          = some (strToBytes ref)) := by
  constructor
  · intro c h1 _ h3 _
    exact fromReference_toReference c h1 h3
  · decide

/-- Witness for c5_coordinate_roundtrip at the concrete coordinate
BC42 (row 42, column 55). -/
theorem c5_coordinate_roundtrip_witness :
    CellCoordinate.fromReference (CellCoordinate.toReference ⟨42, 55⟩)
      = some ⟨42, 55⟩ :=
  c5_coordinate_roundtrip.1 ⟨42, 55⟩ (by decide) (by decide) (by decide) (by decide)

/-- C7 counterexample: the sheet stream reader's parseCellReference
accepts XFE1 (column 16385 > 16384) and A1048577 (row 1048577 >
1048576) as valid coordinates; no bound check exists, so no error is
surfaced for references beyond XFD1048576. -/
theorem c7_limits_counterexample :
    parseCellReference (strToBytes "XFE1") = some ⟨1, 16385⟩
    ∧ parseCellReference (strToBytes "A1048577") = some ⟨1048577, 1⟩
    ∧ CellCoordinate.fromReference (strToBytes "XFE1") = some ⟨1, 16385⟩ := by
  decide

/-- C7 amended: parseCellReference enforces no sheet-size limit; every
well-formed reference with positive row and column parses to that
coordinate, including references beyond XFD1048576 (the stated bound
10^9 keeps the C++ int accumulators far from overflow). -/
theorem c7_no_limit_enforced (c : CellCoordinate)
    (hr : 1 ≤ c.row) (hrb : c.row ≤ 1000000000)
    (hc : 1 ≤ c.column) (hcb : c.column ≤ 1000000000) :
    parseCellReference c.toReference = some c :=
  parseCellReference_toReference c hr hc

/-- Witness for c7_no_limit_enforced at XFE1048577, one past both
sheet maxima. -/
theorem c7_no_limit_enforced_witness :
    parseCellReference (CellCoordinate.toReference ⟨1048577, 16385⟩)
      = some ⟨1048577, 16385⟩ :=
  c7_no_limit_enforced ⟨1048577, 16385⟩ (by decide) (by decide) (by decide) (by decide)

/-! CSV field escaping (CsvRowCollectorImpl). -/

/-- CsvRowCollectorImpl::appendEscapedCsvField (src/unnamed/part_001,
lines 286-306) as a pure function from the configured delimiter and
the field to the bytes appended to the output: quote iff the field
contains the delimiter, a double quote, a line feed or a carriage
return; when quoting, emit an extra double quote before each embedded
double quote. No other datum is consulted. -/
def appendEscapedCsvField (delim : Nat) (field : List Nat) : List Nat :=
  if delim ∈ field ∨ 34 ∈ field ∨ 10 ∈ field ∨ 13 ∈ field then
    [34] ++ (field.flatMap fun ch => if ch = 34 then [34, ch] else [ch]) ++ [34]
  else field

/-- C1: evaluation of appendEscapedCsvField at the failing input of
the claim. With delimiter ',' the plain field "abc" is emitted without
any quotes; the function takes no quote-all datum at all, so the
emitted field is unquoted no matter how CsvOptions::quoteAll is set,
contradicting the claimed iff. -/
theorem c1_quote_all_ignored :
    appendEscapedCsvField 44 (strToBytes "abc") = strToBytes "abc"
    ∧ 34 ∉ appendEscapedCsvField 44 (strToBytes "abc")
    ∧ appendEscapedCsvField 44 (strToBytes "Say \"Hi\"")
        = strToBytes "\"Say \"\"Hi\"\"\"" := by
  decide

/-! Sheet stream reader: typed cell value interpretation. -/

/-- Cell type tags (src CellType). -/
inductive CellType where
  | Boolean
  | Number
  | SharedString
  | InlineString
  | String
  | Error
  | Unknown
deriving DecidableEq, Repr

/-- Cell value variant (src CellValue = std::variant): monostate,
bool, double, shared-string index, or text. -/
inductive CellValue where
  | Empty : CellValue
  | Bool (b : Bool) : CellValue
  | Double (q : ℚ) : CellValue
  | SharedStringIndex (i : Int) : CellValue
  | Text (s : List Nat) : CellValue
deriving DecidableEq

/-- Integer parse modelling std::from_chars over int (as used for
shared-string indices in sheet_stream_reader.cpp, lines 347-357): an
optional minus sign, one or more decimal digits consuming the whole
input, and a value within the 32-bit int range. -/
def fromCharsInt (s : List Nat) : Option Int :=
  match s with
  | 45 :: rest =>
    if rest ≠ [] ∧ rest.all isdigitB then
      if (digVal rest 0 : Int) ≤ 2147483648 then some (-(digVal rest 0 : Int))
      else none
    else none
  | _ =>
    if s ≠ [] ∧ s.all isdigitB then
      if (digVal s 0 : Int) ≤ 2147483647 then some (digVal s 0 : Int)
      else none
    else none

/-- SheetStreamReader::Impl::convertCellValue
(src/src/core/sheet_stream_reader.cpp, lines 323-365). The call to
std::strtod for Number cells is abstracted as a parameter returning
the parsed double when the whole input is consumed. An empty value
string yields Empty before the type switch; a Boolean value is true
exactly when the text equals "1". -/
def convertCellValue (strtod : List Nat → Option ℚ)
    (valueStr : List Nat) (type : CellType) : CellValue :=
  if valueStr = [] then .Empty
  else
    match type with
    | .Boolean => .Bool (valueStr == [49])
    | .Number =>
      match strtod valueStr with
      | some q => .Double q
      | none => .Empty
    | .SharedString =>
      match fromCharsInt valueStr with
      | some i => .SharedStringIndex i
      | none => .Empty
    | .Error => .Text valueStr
    | .String => .Text valueStr
    | .InlineString => .Text valueStr
    | .Unknown => .Text valueStr

/-- C6 counterexample: a Boolean cell whose text is "2" (not "1", not
"0") is converted to the value false, not to Empty as the claim
states. -/
theorem c6_boolean_counterexample :
    convertCellValue (fun _ => none) (strToBytes "2") CellType.Boolean
      = CellValue.Bool false
    ∧ convertCellValue (fun _ => none) (strToBytes "2") CellType.Boolean
      ≠ CellValue.Empty := by
  decide

/-- C6 amended: for a Boolean cell, "1" yields true, an empty value
text yields Empty (via the empty-string guard), and every other
non-empty text (including "0") yields false. -/
theorem c6_boolean_conversion (strtod : List Nat → Option ℚ) :
    convertCellValue strtod (strToBytes "1") CellType.Boolean = CellValue.Bool true
    ∧ convertCellValue strtod (strToBytes "0") CellType.Boolean = CellValue.Bool false
    ∧ convertCellValue strtod [] CellType.Boolean = CellValue.Empty
    ∧ ∀ s : List Nat, s ≠ [] → s ≠ strToBytes "1" →
        convertCellValue strtod s CellType.Boolean = CellValue.Bool false := by
  refine ⟨rfl, rfl, rfl, ?_⟩
  intro s hne h1
  rw [convertCellValue, if_neg hne]
  have : (s == [49]) = false := by
    rw [beq_eq_false_iff_ne]
    intro h
    exact h1 (by rw [h]; rfl)
  simp only [this]

/-- Witness for c6_boolean_conversion at the non-empty text "TRUE". -/
theorem c6_boolean_conversion_witness :
    convertCellValue (fun _ => none) (strToBytes "TRUE") CellType.Boolean
      = CellValue.Bool false :=
  (c6_boolean_conversion (fun _ => none)).2.2.2 (strToBytes "TRUE")
    (by decide) (by decide)

/-! Zip reader path handling. -/

/-- ZipReader::Impl::sanitizePath (src/src/core/zip_reader.cpp, lines
217-230): replace every backslash with '/', then strip leading '/'
bytes. -/
def sanitizePath (p : List Nat) : List Nat :=
  (p.map fun c => if c = 92 then 47 else c).dropWhile fun c => c == 47

/-- Helper for the absolute-path test of isPathSuspicious: non-empty
and first byte '/'. -/
def startsWithSlash (p : List Nat) : Bool :=
  match p with
  | [] => false
  | c :: _ => c == 47

/-- Substring test for ".." used by isPathSuspicious. -/
def hasDotDot : List Nat → Bool
  | a :: b :: rest => (a == 46 && b == 46) || hasDotDot (b :: rest)
  | _ => false

/-- ZipReader::Impl::isPathSuspicious (src/src/core/zip_reader.cpp,
lines 232-254): path traversal "..", absolute path, NUL byte, or
length over 1024. -/
def isPathSuspicious (p : List Nat) : Bool :=
  hasDotDot p || startsWithSlash p || p.contains 0 || decide (1024 < p.length)

/-- Path admission of ZipReader::Impl::listEntries
(src/src/core/zip_reader.cpp, lines 74-96): the entry path is the
sanitized name; empty or suspicious paths are skipped and excluded
from the listing. -/
def listedEntryPath (raw : List Nat) : Option (List Nat) :=
  let p := sanitizePath raw
  if p = [] ∨ isPathSuspicious p = true then none else some p

/-- Path gate of ZipReader::Impl::readEntry
(src/src/core/zip_reader.cpp, lines 120-127): a suspicious path given
directly to readEntry raises an error before any lookup. -/
def readEntryPathCheck (p : List Nat) : Except (List Nat) Unit :=
  if isPathSuspicious p = true then
    .error (strToBytes "Suspicious path rejected: " ++ p)
  else .ok ()

lemma mem_sanitizePath {c : Nat} {raw : List Nat}
    (h : c ∈ sanitizePath raw) : c ≠ 92 := by
  intro hc
  subst hc
  have hm : (92 : Nat) ∈ (raw.map fun c => if c = 92 then 47 else c) :=
    (List.dropWhile_sublist _).subset h
  obtain ⟨a, _, ha⟩ := List.mem_map.mp hm
  by_cases h92 : a = 92 <;> simp [h92] at ha

/-- C8: every path admitted to the listing has been normalized (no
backslash survives, no leading '/'), and contains no "..", no NUL
byte, and is at most 1024 bytes long; and readEntry raises an error
for every path matching any of the suspicious conditions, even when
supplied directly. -/
theorem c8_zip_path_sanitization :
    (∀ raw p : List Nat, listedEntryPath raw = some p →
      92 ∉ p ∧ startsWithSlash p = false ∧ hasDotDot p = false
      ∧ p.contains 0 = false ∧ p.length ≤ 1024)
    ∧ (∀ p : List Nat,
        hasDotDot p = true ∨ startsWithSlash p = true
          ∨ p.contains 0 = true ∨ 1024 < p.length →
        ∃ msg, readEntryPathCheck p = .error msg) := by
  constructor
  · intro raw p hp
    rw [listedEntryPath] at hp
    by_cases hcond : sanitizePath raw = [] ∨ isPathSuspicious (sanitizePath raw) = true
    · rw [if_pos hcond] at hp
      exact Option.noConfusion hp
    · rw [if_neg hcond] at hp
      cases hp
      push_neg at hcond
      obtain ⟨-, hsusp⟩ := hcond
      have hsusp' : isPathSuspicious (sanitizePath raw) = false :=
        Bool.eq_false_iff.mpr hsusp
      rw [isPathSuspicious] at hsusp'
      simp only [Bool.or_eq_false_iff, decide_eq_false_iff_not, not_lt] at hsusp'
      obtain ⟨⟨⟨hdd, hsl⟩, hnul⟩, hlen⟩ := hsusp'
      exact ⟨fun hm => mem_sanitizePath hm rfl, hsl, hdd, hnul, hlen⟩
  · intro p hp
    refine ⟨strToBytes "Suspicious path rejected: " ++ p, ?_⟩
    rw [readEntryPathCheck, if_pos]
    rw [isPathSuspicious]
    rcases hp with h | h | h | h
    · simp only [h, Bool.true_or]
    · simp only [h, Bool.true_or, Bool.or_true]
    · simp only [h, Bool.or_true, Bool.true_or]
    · simp only [decide_eq_true h, Bool.or_true]

/-- Witness for c8_zip_path_sanitization: the raw entry name
"\xl\workbook.xml" is listed as "xl/workbook.xml" and satisfies every
sanitization property; readEntry rejects "../secret". -/
theorem c8_zip_path_sanitization_witness :
    (92 ∉ strToBytes "xl/workbook.xml"
      ∧ startsWithSlash (strToBytes "xl/workbook.xml") = false
      ∧ hasDotDot (strToBytes "xl/workbook.xml") = false
      ∧ (strToBytes "xl/workbook.xml").contains 0 = false
      ∧ (strToBytes "xl/workbook.xml").length ≤ 1024)
    ∧ ∃ msg, readEntryPathCheck (strToBytes "../secret") = .error msg :=
  ⟨c8_zip_path_sanitization.1 (strToBytes "\\xl\\workbook.xml")
      (strToBytes "xl/workbook.xml") (by decide),
    c8_zip_path_sanitization.2 (strToBytes "../secret") (Or.inl (by decide))⟩

/-! Excel serial date conversion (DateConverter). -/

/-- Workbook date system (src DateSystem). -/
inductive DateSystem where
  | Date1900
  | Date1904
deriving DecidableEq, Repr

/-- C++ cast of a double to an integer type: truncation toward zero. -/
def ratTrunc (x : ℚ) : Int := if x < 0 then -⌊-x⌋ else ⌊x⌋

/-- Civil date (year, month, day) of a count of days since 1970-01-01
in the proleptic Gregorian calendar; models the date part computed by
std::gmtime in DateConverter::convertExcelSerial. -/
def civilFromDays (z : Int) : Int × Nat × Nat :=
  let zs : Int := z + 719468
  let era : Int := (if 0 ≤ zs then zs else zs - 146096).tdiv 146097
  let doe : Nat := (zs - era * 146097).toNat
  let yoe : Nat := (doe - doe / 1460 + doe / 36524 - doe / 146096) / 365
  let y : Int := (yoe : Int) + era * 400
  let doy : Nat := doe - (365 * yoe + yoe / 4 - yoe / 100)
  let mp : Nat := (5 * doy + 2) / 153
  let d : Nat := doy - (153 * mp + 2) / 5 + 1
  let m : Nat := if mp < 10 then mp + 3 else mp - 9
  ((if m ≤ 2 then y + 1 else y), m, d)

/-- Serial-date adjustment of DateConverter::convertExcelSerial
(src/unnamed/part_001, lines 28-38): add 1462 under Date1904; subtract
one day under Date1900 when the serial is at least 60 (phantom
1900-02-29). -/
def adjustedSerial (serial : ℚ) (ds : DateSystem) : ℚ :=
  (serial + (if ds = DateSystem.Date1904 then 1462 else 0))
    - (if ds = DateSystem.Date1900 ∧ 60 ≤ serial then 1 else 0)

/-- Seconds since the Unix epoch as computed at src/unnamed/part_001,
lines 42-46: subtract the 25567-day offset, scale to seconds, cast to
int64_t (truncation). -/
def serialSecs (a : ℚ) : Int := ratTrunc ((a - 25567) * 86400)

/-- Day count handed to gmtime: floor division of the seconds by
86400 (glibc normalizes a negative remainder downward). -/
def serialDays (a : ℚ) : Int := (serialSecs a).fdiv 86400

/-- Civil date shown for an adjusted serial. -/
def serialCivil (a : ℚ) : Int × Nat × Nat := civilFromDays (serialDays a)

/-- Fractional part of the adjusted serial (src/unnamed/part_001, line
50). -/
def serialFrac (a : ℚ) : ℚ := a - ⌊a⌋

/-- Hours component (src line 51): int cast of f * 24. -/
def serialHours (a : ℚ) : Int := ratTrunc (serialFrac a * 24)

/-- Minutes component (src line 52). -/
def serialMinutes (a : ℚ) : Int :=
  ratTrunc ((serialFrac a * 24 - serialHours a) * 60)

/-- Seconds component (src line 53). -/
def serialSeconds (a : ℚ) : Int :=
  ratTrunc (((serialFrac a * 24 - serialHours a) * 60 - serialMinutes a) * 60)

/-- Bytes of std::to_string over a signed integer. -/
def intReprB (i : Int) : List Nat :=
  if i < 0 then 45 :: decReprB (-i).toNat else decReprB i.toNat

/-- Two-digit zero-padded field of strftime (%m, %d, %H, %M, %S). -/
def pad2 (n : Nat) : List Nat := if n < 10 then [48, 48 + n] else decReprB n

/-- Bytes of the put_time pattern %Y-%m-%d for an adjusted serial. -/
def renderYMD (a : ℚ) : List Nat :=
  intReprB (serialCivil a).1 ++ [45] ++ pad2 (serialCivil a).2.1
    ++ [45] ++ pad2 (serialCivil a).2.2

/-- Bytes of the put_time pattern %H:%M:%S for an adjusted serial
(the tm fields are overridden with the computed components). -/
def renderHMS (a : ℚ) : List Nat :=
  pad2 (serialHours a).toNat ++ [58] ++ pad2 (serialMinutes a).toNat
    ++ [58] ++ pad2 (serialSeconds a).toNat

/-- DateConverter::convertExcelSerial (src/unnamed/part_001, lines
19-86): the serial ≤ 0 guard, the date-system adjustment, and the
shape dispatch on hasDatePart = (f < 0.999) and hasTimePart =
(f > 0.001). The formatCode parameter of the C++ is unused there and
is omitted. The chrono/gmtime round trip is embedded only in its
overflow-free regime: for serials beyond roughly 1.3e5 (calendar
years past 2262) the libstdc++ from_time_t conversion to a nanosecond
time_point overflows int64, and far beyond that glibc gmtime returns
NULL, upon which the code yields "1900-01-01" (lines 59-61); neither
path is modelled here, so theorems about strictly positive serials
carry an explicit serial ≤ 100000 bound (year 2173), inside which
this embedding and the code agree. The serial ≤ 0 guard (lines 24-26)
returns before any chrono call and is embedded exactly, for every
serial. -/
def convertExcelSerial (serial : ℚ) (ds : DateSystem) : List Nat :=
  if serial ≤ 0 then strToBytes "1900-01-01"
  else if serialFrac (adjustedSerial serial ds) < 999/1000
      ∧ 1/1000 < serialFrac (adjustedSerial serial ds) then
    renderYMD (adjustedSerial serial ds) ++ [84] ++ renderHMS (adjustedSerial serial ds)
  else if 1/1000 < serialFrac (adjustedSerial serial ds) then
    renderHMS (adjustedSerial serial ds)
  else
    renderYMD (adjustedSerial serial ds)

/-- C2 amended: the serial ≤ 0 guard holds as claimed for every
serial; for strictly positive serials within the chrono-safe range
(serial ≤ 100000, year 2173 — beyond roughly 1.3e5 the code's
from_time_t/gmtime machinery overflows and its output departs from
the claimed date arithmetic altogether), the date-system adjustments
hold as claimed and the output shape is chosen from the fractional
part f of the adjusted serial with inclusive boundaries: date-only
when f ≤ 0.001, time-only when f ≥ 0.999, combined date-time strictly
in between (the claim stated strict comparisons, which fails exactly
at f = 0.001 and f = 0.999). -/
theorem c2_serial_conversion (serial : ℚ) (ds : DateSystem) :
    (serial ≤ 0 → convertExcelSerial serial ds = strToBytes "1900-01-01")
    ∧ (0 < serial → serial ≤ 100000 →
      (ds = DateSystem.Date1904 → adjustedSerial serial ds = serial + 1462)
      ∧ (ds = DateSystem.Date1900 → 60 ≤ serial → adjustedSerial serial ds = serial - 1)
      ∧ (ds = DateSystem.Date1900 → serial < 60 → adjustedSerial serial ds = serial)
      ∧ (serialFrac (adjustedSerial serial ds) ≤ 1/1000 →
          convertExcelSerial serial ds = renderYMD (adjustedSerial serial ds))
      ∧ (999/1000 ≤ serialFrac (adjustedSerial serial ds) →
          convertExcelSerial serial ds = renderHMS (adjustedSerial serial ds))
      ∧ (1/1000 < serialFrac (adjustedSerial serial ds) →
          serialFrac (adjustedSerial serial ds) < 999/1000 →
          convertExcelSerial serial ds
            = renderYMD (adjustedSerial serial ds) ++ [84]
              ++ renderHMS (adjustedSerial serial ds))) := by
  constructor
  · intro h
    rw [convertExcelSerial, if_pos h]
  · intro hpos hrange
    have hns : ¬ serial ≤ 0 := not_le.mpr hpos
    refine ⟨?_, ?_, ?_, ?_, ?_, ?_⟩
    · intro h1904
      subst h1904
      rw [adjustedSerial, if_pos rfl, if_neg]
      · ring
      · rintro ⟨h, -⟩
        exact DateSystem.noConfusion h
    · intro h1900 h60
      subst h1900
      rw [adjustedSerial, if_neg (by intro h; exact DateSystem.noConfusion h),
        if_pos ⟨rfl, h60⟩]
      ring
    · intro h1900 h60
      subst h1900
      rw [adjustedSerial, if_neg (by intro h; exact DateSystem.noConfusion h),
        if_neg (by rintro ⟨-, h⟩; linarith)]
      ring
    · intro hf
      rw [convertExcelSerial, if_neg hns, if_neg (by rintro ⟨-, h⟩; linarith),
        if_neg (by intro h; linarith)]
    · intro hf
      rw [convertExcelSerial, if_neg hns, if_neg (by rintro ⟨h, -⟩; linarith),
        if_pos (by linarith)]
    · intro hf1 hf2
      rw [convertExcelSerial, if_neg hns, if_pos ⟨hf2, hf1⟩]

/-- Witness for c2_serial_conversion: the guard at serial -1, and the
date-only branch at serial 44562 (fractional part 0). -/
theorem c2_serial_conversion_witness :
    convertExcelSerial (-1) DateSystem.Date1900 = strToBytes "1900-01-01"
    ∧ convertExcelSerial 44562 DateSystem.Date1900
        = renderYMD (adjustedSerial 44562 DateSystem.Date1900) := by
  have hadj : adjustedSerial (44562 : ℚ) DateSystem.Date1900 = 44561 := by
    rw [adjustedSerial, if_neg (by intro h; exact DateSystem.noConfusion h),
      if_pos ⟨rfl, by norm_num⟩]
    norm_num
  have hfrac : serialFrac (adjustedSerial 44562 DateSystem.Date1900) ≤ 1/1000 := by
    rw [hadj, serialFrac]
    norm_num
  exact ⟨(c2_serial_conversion (-1) DateSystem.Date1900).1 (by norm_num),
    ((c2_serial_conversion 44562 DateSystem.Date1900).2 (by norm_num)
      (by norm_num)).2.2.2.1 hfrac⟩

/-- C2 counterexample: at serial 0.001 (Date1900) the fractional part
is exactly 0.001, so neither of the claim's strict conditions
f < 0.001 and f > 0.999 holds and the claim prescribes the combined
date-time shape; the code instead produces the date-only string
"1900-01-01" because its hasTimePart test f > 0.001 is false. -/
theorem c2_boundary_counterexample :
    ¬ serialFrac (adjustedSerial (1/1000) DateSystem.Date1900) < 1/1000
    ∧ ¬ (999/1000 : ℚ) < serialFrac (adjustedSerial (1/1000) DateSystem.Date1900)
    ∧ convertExcelSerial (1/1000) DateSystem.Date1900 = strToBytes "1900-01-01"
    ∧ convertExcelSerial (1/1000) DateSystem.Date1900
        ≠ renderYMD (adjustedSerial (1/1000) DateSystem.Date1900) ++ [84]
          ++ renderHMS (adjustedSerial (1/1000) DateSystem.Date1900) := by
  have hadj : adjustedSerial (1/1000 : ℚ) DateSystem.Date1900 = 1/1000 := by
    rw [adjustedSerial, if_neg (by intro h; exact DateSystem.noConfusion h),
      if_neg (by rintro ⟨-, h⟩; norm_num at h)]
    norm_num
  have hfrac : serialFrac (1/1000 : ℚ) = 1/1000 := by
    rw [serialFrac]
    norm_num
  have hdays : serialDays (1/1000 : ℚ) = -25567 := by
    have hsecs : serialSecs (1/1000 : ℚ) = -2208988713 := by
      rw [serialSecs, ratTrunc, if_pos (by norm_num)]
      have h1 : -((1/1000 - 25567 : ℚ) * 86400) = 22089887136/10 := by norm_num
      rw [h1]
      norm_num
    rw [serialDays, hsecs]
    decide
  have hymd : renderYMD (1/1000 : ℚ) = strToBytes "1900-01-01" := by
    have hciv : serialCivil (1/1000 : ℚ) = (1900, 1, 1) := by
      rw [serialCivil, hdays]
      decide
    rw [renderYMD, hciv]
    decide
  have hout : convertExcelSerial (1/1000) DateSystem.Date1900 = strToBytes "1900-01-01" := by
    rw [convertExcelSerial, if_neg (by norm_num), hadj, hfrac,
      if_neg (by rintro ⟨-, h⟩; norm_num at h), if_neg (by norm_num)]
    exact hymd
  refine ⟨by rw [hadj, hfrac]; norm_num, by rw [hadj, hfrac]; norm_num, hout, ?_⟩
  rw [hout]
  intro heq
  have hre : renderYMD (adjustedSerial (1/1000) DateSystem.Date1900)
      = strToBytes "1900-01-01" := by
    rw [hadj]
    exact hymd
  rw [hre] at heq
  have hlen := congrArg List.length heq
  simp only [List.length_append, List.length_cons, List.length_nil] at hlen
  omega

/-- C3 counterexample: converting serial 0 under Date1904 does not
yield "1904-01-01"; the serial ≤ 0 guard returns before the +1462
adjustment is applied. -/
theorem c3_serial_zero_1904_counterexample :
    convertExcelSerial 0 DateSystem.Date1904 ≠ strToBytes "1904-01-01" := by
  rw [convertExcelSerial, if_pos (le_refl (0 : ℚ))]
  decide

/-- C3 amended: numeric serial 0 under the Date1904 date system yields
"1900-01-01", because the serial ≤ 0 guard precedes the date-system
adjustment; the +1462 adjustment and epoch arithmetic apply only to
strictly positive serials. -/
theorem c3_serial_zero_1904 :
    convertExcelSerial 0 DateSystem.Date1904 = strToBytes "1900-01-01" := by
  rw [convertExcelSerial, if_pos (le_refl (0 : ℚ))]

/-! Plain number formatting (DataConverter::formatNumericValue). -/

/-- A C++ double where the code branches on NaN and infinity; finite
values are exact rationals. -/
inductive CppDouble where
  | nan
  | posInf
  | negInf
  | val (q : ℚ)
deriving DecidableEq

/-- Correct rounding of a nonnegative exact value to an integer, ties
to even: the rounding applied by the iostream fixed formatting to the
exact value of the double. -/
def rhe (x : ℚ) : Nat :=
  if 1/2 < x - ⌊x⌋ then ⌊x⌋.toNat + 1
  else if x - ⌊x⌋ < 1/2 then ⌊x⌋.toNat
  else if ⌊x⌋.toNat % 2 = 0 then ⌊x⌋.toNat else ⌊x⌋.toNat + 1

/-- Six-digit zero-padded fraction field. -/
def pad6 (k : Nat) : List Nat :=
  List.replicate (6 - (decDigitsB k).length) 48 ++ decDigitsB k

/-- Bytes written by ostringstream with std::fixed and
std::setprecision(6) (src/unnamed/part_001, lines 163-166): optional
sign, integer part, '.', six fraction digits. -/
def fixed6 (q : ℚ) : List Nat :=
  (if q < 0 then [45] else [])
    ++ decReprB (rhe (|q| * 1000000) / 1000000) ++ [46]
    ++ pad6 (rhe (|q| * 1000000) % 1000000)

/-- Trailing-zero and trailing-dot strip of
DataConverter::formatNumericValue (src/unnamed/part_001, lines
168-174): when a '.' is present, erase everything after the last
non-'0' byte, then drop a final '.'. -/
def stripTrailingZerosDot (r : List Nat) : List Nat :=
  if 46 ∈ r then
    let r1 := (r.reverse.dropWhile fun c => c == 48).reverse
    if r1.getLast? = some 46 then r1.dropLast else r1
  else r

/-- DataConverter::formatNumericValue (src/unnamed/part_001, lines
152-177): NaN and infinities map to error strings; a finite value
equal to its floor and of magnitude below 1e15 is printed through
std::to_string(long long); any other finite value is printed in fixed
notation with six fraction digits and stripped. -/
def formatNumericValue (value : CppDouble) : List Nat :=
  match value with
  | CppDouble.nan => strToBytes "#NUM!"
  | CppDouble.posInf => strToBytes "#DIV/0!"
  | CppDouble.negInf => strToBytes "-#DIV/0!"
  | CppDouble.val q =>
    if q = (⌊q⌋ : ℚ) ∧ |q| < 1000000000000000 then intReprB ⌊q⌋
    else stripTrailingZerosDot (fixed6 q)

lemma not_dot_decReprB (n : Nat) : 46 ∉ decReprB n := by
  rw [decReprB]
  by_cases h : n = 0
  · rw [if_pos h]
    decide
  · rw [if_neg h]
    intro hmem
    have := decDigitsB_mem n 46 hmem
    omega

lemma not_dot_intReprB (i : Int) : 46 ∉ intReprB i := by
  rw [intReprB]
  by_cases h : i < 0
  · rw [if_pos h]
    intro hmem
    rcases List.mem_cons.mp hmem with h46 | h46
    · omega
    · exact not_dot_decReprB _ h46
  · rw [if_neg h]
    exact not_dot_decReprB _

/-- C4: formatNumericValue renders every integral value of magnitude
at most 1e15 with no fractional part (no '.' appears; at the closed
boundary the fixed-notation path strips back to the plain integer);
NaN and the infinities map to the three error strings; every other
finite value goes through fixed six-digit notation followed by the
trailing-zero / trailing-dot strip. -/
theorem c4_number_formatting :
    (∀ q : ℚ, q = (⌊q⌋ : ℚ) → |q| ≤ 1000000000000000 →
      46 ∉ formatNumericValue (CppDouble.val q))
    ∧ formatNumericValue CppDouble.nan = strToBytes "#NUM!"
    ∧ formatNumericValue CppDouble.posInf = strToBytes "#DIV/0!"
    ∧ formatNumericValue CppDouble.negInf = strToBytes "-#DIV/0!"
    ∧ (∀ q : ℚ, ¬(q = (⌊q⌋ : ℚ) ∧ |q| ≤ 1000000000000000) →
      formatNumericValue (CppDouble.val q) = stripTrailingZerosDot (fixed6 q)) := by
  refine ⟨?_, rfl, rfl, rfl, ?_⟩
  · intro q hint hle
    by_cases hlt : |q| < 1000000000000000
    · simp only [formatNumericValue]
      rw [if_pos ⟨hint, hlt⟩]
      exact not_dot_intReprB _
    · have habs : |q| = 1000000000000000 := le_antisymm hle (not_lt.mp hlt)
      have hq : q = 1000000000000000 ∨ q = -1000000000000000 :=
        (abs_eq (by norm_num : (0:ℚ) ≤ 1000000000000000)).mp habs
      have hx : |q| * 1000000 = (1000000000000000000000 : ℚ) := by
        rw [habs]
        norm_num
      have hrhe : rhe (|q| * 1000000) = 1000000000000000000000 := by
        rw [hx, rhe]
        have hfl : (⌊(1000000000000000000000 : ℚ)⌋ : Int) = 1000000000000000000000 := by
          norm_num
        rw [hfl, if_neg (by norm_num), if_pos (by norm_num)]
        decide
      rcases hq with rfl | rfl
      · simp only [formatNumericValue]
        rw [if_neg (by rintro ⟨-, h⟩; norm_num at h)]
        rw [fixed6, if_neg (by norm_num), hrhe]
        decide
      · simp only [formatNumericValue]
        rw [if_neg (by rintro ⟨-, h⟩; rw [abs_neg] at h; norm_num at h)]
        rw [fixed6, if_pos (by norm_num), hrhe]
        decide
  · intro q hnot
    simp only [formatNumericValue]
    rw [if_neg]
    rintro ⟨hfl, hlt⟩
    exact hnot ⟨hfl, le_of_lt hlt⟩

/-- Witness for c4_number_formatting: the integral value 7 and the
boundary value 1e15 print with no dot; 0.5 goes through the
fixed-and-strip path. -/
theorem c4_number_formatting_witness :
    46 ∉ formatNumericValue (CppDouble.val 7)
    ∧ 46 ∉ formatNumericValue (CppDouble.val 1000000000000000)
    ∧ formatNumericValue (CppDouble.val (1/2))
        = stripTrailingZerosDot (fixed6 (1/2)) :=
  ⟨c4_number_formatting.1 7 (by norm_num) (by norm_num),
    c4_number_formatting.1 1000000000000000 (by norm_num) (by norm_num),
    c4_number_formatting.2.2.2.2 (1/2)
      (by rintro ⟨h, -⟩; norm_num at h)⟩

/-! Style registry date mask and numeric conversion dispatch. -/

/-- The slice of StylesRegistry state that isDateTimeStyle consults:
the open flag and the m_dateTimeStyleMask byte vector
(src/unnamed/part_003). -/
structure StylesState where
  isOpen : Bool
  dateTimeStyleMask : List Nat
deriving DecidableEq

/-- StylesRegistry::Impl::isDateTimeStyle (src/unnamed/part_003, lines
158-163): false when closed, negative, or out of mask range; else the
mask byte is tested against zero. -/
def isDateTimeStyle (st : StylesState) (styleIndex : Int) : Bool :=
  if st.isOpen = false ∨ styleIndex < 0
      ∨ (st.dateTimeStyleMask.length : Int) ≤ styleIndex then false
  else st.dateTimeStyleMask.getD styleIndex.toNat 0 != 0

/-- DataConverter::convertNumericValue (src/unnamed/part_001, lines
138-150): the date path is taken only when a style registry is
present, the style index is strictly positive, and the date mask is
hot for it; otherwise the plain number formatting runs. -/
def convertNumericValue (value : ℚ) (styleIndex : Int)
    (styles : Option StylesState) (dateSystem : DateSystem) : List Nat :=
  match styles with
  | some st =>
    if 0 < styleIndex ∧ isDateTimeStyle st styleIndex = true then
      convertExcelSerial value dateSystem
    else formatNumericValue (CppDouble.val value)
  | none => formatNumericValue (CppDouble.val value)

/-- C10: a Number cell with style index 0 always renders as a plain
number, for every styles-registry state (including one whose mask
marks record 0 as a date/time style, as the second conjunct shows is
expressible) and every date system: the date path requires a strictly
positive style index. -/
theorem c10_style_index_zero_plain_number :
    (∀ (value : ℚ) (styles : Option StylesState) (ds : DateSystem),
      convertNumericValue value 0 styles ds
        = formatNumericValue (CppDouble.val value))
    ∧ isDateTimeStyle ⟨true, [1]⟩ 0 = true := by
  constructor
  · intro value styles ds
    cases styles with
    | none => rfl
    | some st =>
      simp only [convertNumericValue]
      rw [if_neg]
      rintro ⟨h, -⟩
      exact lt_irrefl 0 h
  · decide

/-! Shared-strings provider (SharedStringsProvider::Impl,
src/unnamed/part_000). -/

/-- The observable state of a SharedStringsProvider::Impl: open flag,
string count, storage mode, the in-memory arena bytes with their
offset table, and the spill-file records (file I/O abstracted to the
record list written in id order). -/
structure SharedStringsState where
  isOpen : Bool
  stringCount : Nat
  isUsingDisk : Bool
  arena : List Nat
  offsets : List Nat
  diskRecords : List (List Nat)
deriving DecidableEq

/-- State after parse of a package that has no xl/sharedStrings.xml
(src/unnamed/part_000, lines 32-38): not an error; the provider is
open with zero strings. -/
def parseMissing : SharedStringsState :=
  ⟨true, 0, false, [], [], []⟩

/-- SharedStringsProvider::Impl::storeStringToArena
(src/unnamed/part_000, lines 339-361): record the current arena size
as a 32-bit offset (resizing the offset table with zeros when the
index is beyond it), append the bytes and a NUL terminator. -/
def storeStringToArena (st : SharedStringsState) (index : Nat)
    (value : List Nat) : SharedStringsState :=
  ⟨st.isOpen, st.stringCount, st.isUsingDisk,
    st.arena ++ value ++ [0],
    (if st.offsets.length ≤ index then
        st.offsets ++ List.replicate (index + 1 - st.offsets.length) 0
      else st.offsets).set index (st.arena.length % 4294967296),
    st.diskRecords⟩

/-- The per-item loop of SharedStringsProvider::Impl::parseStrings
(src/unnamed/part_000, lines 247-261) in the in-memory mode: store
each extracted si string at the running index. -/
def storeAll (st : SharedStringsState) (start : Nat) :
    List (List Nat) → SharedStringsState
  | [] => st
  | v :: rest => storeAll (storeStringToArena st start v) (start + 1) rest

/-- State after an in-memory parse of sharedStrings.xml whose si
items flatten to the strings L: the items are stored in order, the
count becomes the number of items, and the provider is open
(src/unnamed/part_000, lines 26-44 and 247-266). -/
def parseInMemory (L : List (List Nat)) : SharedStringsState :=
  { storeAll ⟨false, 0, false, [], [], []⟩ 0 L with
    stringCount := L.length, isOpen := true }

/-- SharedStringsProvider::Impl::getStringFromArena
(src/unnamed/part_000, lines 90-103): bounds-check the offset table
and the arena, then read the NUL-terminated string. -/
def getStringFromArena (st : SharedStringsState) (index : Nat) :
    Option (List Nat) :=
  if st.offsets.length ≤ index then none
  else if st.arena.length ≤ st.offsets.getD index 0 then none
  else some ((st.arena.drop (st.offsets.getD index 0)).takeWhile fun c => c != 0)

/-- SharedStringsProvider::Impl::readStringFromDisk
(src/unnamed/part_000, lines 378-399), with the length-prefixed spill
file abstracted to its record list. -/
def readStringFromDisk (st : SharedStringsState) (index : Nat) :
    Option (List Nat) :=
  if st.isUsingDisk = false ∨ st.diskRecords.length ≤ index then none
  else some (st.diskRecords.getD index [])

/-- SharedStringsProvider::Impl::tryGetString (src/unnamed/part_000,
lines 74-88). -/
def tryGetString (st : SharedStringsState) (index : Nat) :
    Option (List Nat) :=
  if st.isOpen = false ∨ st.stringCount ≤ index then none
  else if st.stringCount = 0 then none
  else if st.isUsingDisk then readStringFromDisk st index
  else getStringFromArena st index

/-- SharedStringsProvider::Impl::getString (src/unnamed/part_000,
lines 66-72): fatal (XlsxError) exactly when tryGetString is absent. -/
def getString (st : SharedStringsState) (index : Nat) :
    Except (List Nat) (List Nat) :=
  match tryGetString st index with
  | none => Except.error (strToBytes "Shared string index " ++ decReprB index
      ++ strToBytes " out of range")
  | some s => Except.ok s

/-- Arena bytes produced by storing the strings L in order:
NUL-terminated strings end to end. -/
def arenaOf (L : List (List Nat)) : List Nat :=
  L.flatMap fun s => s ++ [0]

/-- Byte offset of string i in the arena of L. -/
def sizeUpTo (L : List (List Nat)) (i : Nat) : Nat :=
  (arenaOf (L.take i)).length

/-- Offset table produced by storing the strings L in order. -/
def offsetsOf (L : List (List Nat)) : List Nat :=
  (List.range L.length).map (sizeUpTo L)

lemma arenaOf_nil : arenaOf [] = [] := rfl

lemma offsetsOf_nil : offsetsOf [] = [] := rfl

lemma arenaOf_cons (s : List Nat) (L : List (List Nat)) :
    arenaOf (s :: L) = s ++ 0 :: arenaOf L := by
  simp [arenaOf]

lemma arenaOf_append (A B : List (List Nat)) :
    arenaOf (A ++ B) = arenaOf A ++ arenaOf B := by
  simp [arenaOf]

lemma offsetsOf_length (L : List (List Nat)) :
    (offsetsOf L).length = L.length := by
  simp [offsetsOf]

lemma sizeUpTo_take (M : List (List Nat)) (v : List Nat)
    (i : Nat) (hi : i < M.length) : sizeUpTo (M ++ [v]) i = sizeUpTo M i := by
  rw [sizeUpTo, sizeUpTo, List.take_append_of_le_length (by omega)]

lemma offsetsOf_snoc (M : List (List Nat)) (v : List Nat) :
    offsetsOf (M ++ [v]) = offsetsOf M ++ [(arenaOf M).length] := by
  rw [offsetsOf, offsetsOf, List.length_append, List.length_singleton,
    List.range_succ, List.map_append, List.map_singleton]
  congr 1
  · apply List.map_congr_left
    intro i hi
    exact sizeUpTo_take M v i (List.mem_range.mp hi)
  · rw [sizeUpTo, List.take_append_of_le_length (le_refl _), List.take_length]

lemma set_append_singleton {α : Type} (xs : List α) (a b : α) :
    (xs ++ [a]).set xs.length b = xs ++ [b] := by
  induction xs with
  | nil => rfl
  | cons x t ih => simp [List.set, ih]

lemma storeAll_spec (b : Bool) (c : Nat) (dk : List (List Nat)) :
    ∀ (L M : List (List Nat)),
      (arenaOf M).length + (arenaOf L).length < 4294967296 →
      storeAll ⟨b, c, false, arenaOf M, offsetsOf M, dk⟩ M.length L
        = ⟨b, c, false, arenaOf (M ++ L), offsetsOf (M ++ L), dk⟩ := by
  intro L
  induction L with
  | nil =>
    intro M _
    rw [storeAll, List.append_nil]
  | cons v rest ih =>
    intro M hsz
    have harenaC : (arenaOf (v :: rest)).length
        = v.length + 1 + (arenaOf rest).length := by
      rw [arenaOf_cons]
      simp only [List.length_append, List.length_cons]
      omega
    have hbound : (arenaOf M).length < 4294967296 := by omega
    have hoff : (if (offsetsOf M).length ≤ M.length
          then offsetsOf M ++ List.replicate (M.length + 1 - (offsetsOf M).length) 0
          else offsetsOf M).set M.length ((arenaOf M).length % 4294967296)
        = offsetsOf M ++ [(arenaOf M).length] := by
      rw [offsetsOf_length, if_pos (le_refl _),
        show M.length + 1 - M.length = 1 from by omega, List.replicate_one,
        Nat.mod_eq_of_lt hbound]
      conv_lhs => rw [← offsetsOf_length M]
      exact set_append_singleton _ _ _
    have harena : arenaOf M ++ v ++ [0] = arenaOf (M ++ [v]) := by
      rw [arenaOf_append, arenaOf_cons, arenaOf_nil]
      simp
    have hstore : storeStringToArena ⟨b, c, false, arenaOf M, offsetsOf M, dk⟩
        M.length v
        = ⟨b, c, false, arenaOf (M ++ [v]), offsetsOf (M ++ [v]), dk⟩ := by
      simp only [storeStringToArena]
      rw [hoff, harena, offsetsOf_snoc]
    rw [storeAll, hstore]
    have hlen : (M ++ [v]).length = M.length + 1 := by simp
    have hih := ih (M ++ [v]) (by
      rw [arenaOf_append, arenaOf_cons, arenaOf_nil, List.length_append]
      simp only [List.length_append, List.length_cons, List.length_nil]
      omega)
    rw [← hlen, hih, List.append_cons M v rest]

lemma parseInMemory_eq (L : List (List Nat))
    (hsz : (arenaOf L).length < 4294967296) :
    parseInMemory L = ⟨true, L.length, false, arenaOf L, offsetsOf L, []⟩ := by
  have h := storeAll_spec false 0 [] L [] (by simpa [arenaOf_nil])
  have h' : storeAll ⟨false, 0, false, [], [], []⟩ 0 L
      = ⟨false, 0, false, arenaOf L, offsetsOf L, []⟩ := by
    simpa [arenaOf_nil, offsetsOf_nil] using h
  rw [parseInMemory, h']

lemma offsetsOf_getD (L : List (List Nat)) (i : Nat) (hi : i < L.length) :
    (offsetsOf L).getD i 0 = sizeUpTo L i := by
  have hlen : i < (offsetsOf L).length := by
    rw [offsetsOf_length]
    exact hi
  rw [List.getD_eq_getElem _ _ hlen]
  simp [offsetsOf]

lemma sizeUpTo_lt (L : List (List Nat)) (i : Nat) (hi : i < L.length) :
    sizeUpTo L i < (arenaOf L).length := by
  conv_rhs => rw [← List.take_append_drop i L]
  rw [arenaOf_append, List.length_append, sizeUpTo]
  have hdrop : L.drop i ≠ [] := by
    intro h
    have := List.drop_eq_nil_iff.mp h
    omega
  obtain ⟨s, t, hst⟩ := List.exists_cons_of_ne_nil hdrop
  rw [hst, arenaOf_cons]
  simp

lemma takeWhile_until_zero (xs ys : List Nat) (h0 : 0 ∉ xs) :
    ((xs ++ 0 :: ys).takeWhile fun c => c != 0) = xs := by
  induction xs with
  | nil => simp [List.takeWhile]
  | cons x t ih =>
    have hx : x ≠ 0 := fun h => h0 (h ▸ List.mem_cons_self x t)
    have hx' : (x != 0) = true := by simpa using hx
    rw [List.cons_append, List.takeWhile_cons, if_pos hx',
      ih (fun hm => h0 (List.mem_cons_of_mem _ hm))]

lemma drop_arenaOf (L : List (List Nat)) (i : Nat) (hi : i < L.length) :
    (arenaOf L).drop (sizeUpTo L i)
      = L.get ⟨i, hi⟩ ++ 0 :: arenaOf (L.drop (i + 1)) := by
  have hL : arenaOf L = arenaOf (L.take i) ++ arenaOf (L.drop i) := by
    rw [← arenaOf_append, List.take_append_drop]
  rw [sizeUpTo]
  conv_lhs => rw [hL]
  rw [List.drop_left]
  rw [List.drop_eq_getElem_cons hi, arenaOf_cons]
  rfl

/-- C9: when xl/sharedStrings.xml is absent, parse succeeds with
count 0 and every lookup is absent; and for every in-memory parsed
table (strings free of NUL bytes, total arena size within the 32-bit
offset range) and every index i, getString raises the out-of-range
error exactly when i ≥ count, while tryGetString returns none in that
case and the stored string otherwise. -/
theorem c9_shared_strings_contract :
    (parseMissing.isOpen = true
      ∧ parseMissing.stringCount = 0
      ∧ (∀ i : Nat, tryGetString parseMissing i = none)
      ∧ (∀ i : Nat, ∃ msg, getString parseMissing i = Except.error msg))
    ∧ (∀ L : List (List Nat), (∀ s ∈ L, 0 ∉ s) →
        (arenaOf L).length < 4294967296 →
        (parseInMemory L).stringCount = L.length
        ∧ (∀ i : Nat, L.length ≤ i →
            tryGetString (parseInMemory L) i = none
            ∧ ∃ msg, getString (parseInMemory L) i = Except.error msg)
        ∧ (∀ i : Nat, ∀ hi : i < L.length,
            tryGetString (parseInMemory L) i = some (L.get ⟨i, hi⟩)
            ∧ getString (parseInMemory L) i = Except.ok (L.get ⟨i, hi⟩))) := by
  have hmiss : ∀ i : Nat, tryGetString parseMissing i = none := by
    intro i
    rw [tryGetString]
    apply if_pos
    right
    exact Nat.zero_le i
  constructor
  · refine ⟨rfl, rfl, hmiss, ?_⟩
    intro i
    refine ⟨strToBytes "Shared string index " ++ decReprB i
      ++ strToBytes " out of range", ?_⟩
    rw [getString, hmiss i]
  · intro L h0 hsz
    have hst := parseInMemory_eq L hsz
    have hopen : (parseInMemory L).isOpen = true := by rw [hst]
    have hcnt : (parseInMemory L).stringCount = L.length := by rw [hst]
    have hdisk : (parseInMemory L).isUsingDisk = false := by rw [hst]
    have hoffs : (parseInMemory L).offsets = offsetsOf L := by rw [hst]
    have harena : (parseInMemory L).arena = arenaOf L := by rw [hst]
    refine ⟨hcnt, ?_, ?_⟩
    · intro i hi
      have htry : tryGetString (parseInMemory L) i = none := by
        rw [tryGetString, hcnt]
        exact if_pos (Or.inr hi)
      refine ⟨htry, strToBytes "Shared string index " ++ decReprB i
        ++ strToBytes " out of range", ?_⟩
      rw [getString, htry]
    · intro i hi
      have htry : tryGetString (parseInMemory L) i = some (L.get ⟨i, hi⟩) := by
        rw [tryGetString, hopen, hcnt, hdisk]
        rw [if_neg (by push_neg; exact ⟨fun h => Bool.noConfusion h, hi⟩)]
        rw [if_neg (by omega)]
        rw [if_neg (by intro h; exact Bool.noConfusion h)]
        rw [getStringFromArena, hoffs, harena]
        rw [if_neg (by rw [offsetsOf_length]; omega)]
        rw [offsetsOf_getD L i hi]
        rw [if_neg (by push_neg; exact sizeUpTo_lt L i hi)]
        rw [drop_arenaOf L i hi]
        rw [takeWhile_until_zero _ _ (h0 _ (L.get_mem i hi))]
      exact ⟨htry, by rw [getString, htry]⟩

/-- Witness for c9_shared_strings_contract: the absent-file state at
index 0, and the two-string table ["Hi", "Due"] at indices 1 (hit)
and 5 (out of range). -/
theorem c9_shared_strings_contract_witness :
    tryGetString parseMissing 0 = none
    ∧ tryGetString (parseInMemory [[72, 105], [68, 117, 101]]) 1
        = some [68, 117, 101]
    ∧ tryGetString (parseInMemory [[72, 105], [68, 117, 101]]) 5 = none :=
  ⟨c9_shared_strings_contract.1.2.2.1 0,
    ((c9_shared_strings_contract.2 [[72, 105], [68, 117, 101]]
        (by decide) (by decide)).2.2 1 (by decide)).1,
    ((c9_shared_strings_contract.2 [[72, 105], [68, 117, 101]]
        (by decide) (by decide)).2.1 5 (by decide)).1⟩

end Turboxl
